import Mathlib

/-!
# Verification of the Stox API client core

Shallow embedding of the rate limiter (`src/apis/base_api.py`, class
`RateLimiter`), the request pipeline (`BaseAPI._make_request`) and the
cursor-paginated bulk fetch (`src/apis/massive_api.py`,
`MassiveApi.get_all_tickers`), together with proofs of the behavioural
properties stated in the specification.

Modelling conventions:
* Wall-clock instants are rationals (`ℚ`), in seconds.  `time.sleep(d)`
  followed by `current_time = time.time()` is idealised as advancing the
  clock by exactly `d`.
* Python truthiness is modelled explicitly: `if self.last_call_time:` is
  true iff the value is present and nonzero, `if self.config.calls_per_day:`
  iff present and nonzero, `if max_pages:` iff present and nonzero, and
  `if next_url:` iff present and nonempty.
* `list[...]` state is immutable state passing; each method returns the
  updated state.
-/

namespace Stox

/-- `RateLimitConfig` from `src/config/settings.py` (the fields used by
`RateLimiter`).  `calls_per_day = none` models Python `None`. -/
structure RateLimitConfig where
  calls_per_minute : Nat
  calls_per_day : Option Nat
  min_delay_seconds : ℚ
deriving DecidableEq, Repr

/-- `RateLimitConfig.__post_init__` validation: `calls_per_minute` positive,
`calls_per_day` positive if specified, `min_delay_seconds` non-negative. -/
def RateLimitConfig.Valid (cfg : RateLimitConfig) : Prop :=
  0 < cfg.calls_per_minute ∧
  (∀ n, cfg.calls_per_day = some n → 0 < n) ∧
  0 ≤ cfg.min_delay_seconds

/-- The mutable state of a `RateLimiter` instance: `self.minute_calls`,
`self.day_calls`, `self.last_call_time`. -/
structure RLState where
  minute_calls : List ℚ
  day_calls : List ℚ
  last_call_time : Option ℚ
deriving DecidableEq, Repr

/-- The freshly constructed state (`RateLimiter.__init__`). -/
def RLState.init : RLState := ⟨[], [], none⟩

/-- Python truthiness of `self.last_call_time` (an `Optional[float]`):
`None` and `0.0` are falsy. -/
def optRatTruthy : Option ℚ → Bool
  | none => false
  | some x => x != 0

/-- Python truthiness of `self.config.calls_per_day` (an `Optional[int]`):
`None` and `0` are falsy. -/
def optNatTruthy : Option Nat → Bool
  | none => false
  | some n => n != 0

/-- Step 1 of `wait_if_needed` (base_api.py lines 54-61): if a previous call
instant exists (truthy) and `now - last < min_delay_seconds`, sleep for the
remainder; returns the advanced clock.  Sleeping until
`last + min_delay_seconds` is the idealised `time.sleep(wait_time)` followed
by re-reading `time.time()`. -/
def minDelayPhase (cfg : RateLimitConfig) (last : Option ℚ) (now : ℚ) : ℚ :=
  match last with
  | none => now
  | some l =>
      if l ≠ 0 ∧ now - l < cfg.min_delay_seconds then
        l + cfg.min_delay_seconds
      else now

/-- Steps 2-3 of `wait_if_needed` (base_api.py lines 63-81): prune the minute
window, and if the pruned count reaches `calls_per_minute`, sleep until the
oldest call leaves the window (plus the 0.1 s buffer) and re-prune.  Returns
the updated minute list and clock; `none` models the `IndexError` that
`self.minute_calls[0]` would raise on an empty list (unreachable for a
validated configuration). -/
def minutePhase (cfg : RateLimitConfig) (mc0 : List ℚ) (now : ℚ) :
    Option (List ℚ × ℚ) :=
  let mc1 := mc0.filter (fun t => decide (now - 60 < t))
  if cfg.calls_per_minute ≤ mc1.length then
    match mc1.head? with
    | none => none
    | some oldest =>
        let wt := 60 - (now - oldest) + 1/10
        if 0 < wt then
          let now2 := now + wt
          some (mc1.filter (fun t => decide (now2 - 60 < t)), now2)
        else
          some (mc1, now)
  else
    some (mc1, now)

/-- Step 4 of `wait_if_needed` (base_api.py lines 83-100): if a daily cap is
configured (truthy), prune the day window; the returned flag is `true` when
the pruned count reaches `calls_per_day`, in which case the Python code
raises `RateLimitException` (the `wait_time` it computes there feeds only the
log/exception message). -/
def dayPhase (cfg : RateLimitConfig) (dc0 : List ℚ) (now : ℚ) :
    List ℚ × Bool :=
  match cfg.calls_per_day with
  | none => (dc0, false)
  | some cpd =>
      if cpd = 0 then (dc0, false)
      else
        let dc1 := dc0.filter (fun t => decide (now - 86400 < t))
        (dc1, decide (cpd ≤ dc1.length))

/-- Result of `RateLimiter.wait_if_needed`: normal return, a raised
`RateLimitException` (daily quota), or the `IndexError` latent in the
per-minute branch for `calls_per_minute = 0` (excluded by validation).
Each constructor carries the state left behind and the clock on exit. -/
inductive WaitResult where
  | ok (st : RLState) (now : ℚ)
  | rateLimited (st : RLState) (now : ℚ)
  | indexError (st : RLState) (now : ℚ)
deriving DecidableEq, Repr

/-- The `RLState` a `wait_if_needed` run leaves behind, whatever the exit. -/
def WaitResult.state : WaitResult → RLState
  | .ok st _ => st
  | .rateLimited st _ => st
  | .indexError st _ => st

/-- The clock on exit of a `wait_if_needed` run. -/
def WaitResult.time : WaitResult → ℚ
  | .ok _ t => t
  | .rateLimited _ t => t
  | .indexError _ t => t

/-- `RateLimiter.wait_if_needed` (base_api.py lines 46-100). -/
def wait_if_needed (cfg : RateLimitConfig) (st : RLState) (now : ℚ) :
    WaitResult :=
  let now1 := minDelayPhase cfg st.last_call_time now
  match minutePhase cfg st.minute_calls now1 with
  | none =>
      .indexError
        { st with
            minute_calls := st.minute_calls.filter (fun t => decide (now1 - 60 < t)) }
        now1
  | some (mc, now2) =>
      match dayPhase cfg st.day_calls now2 with
      | (dc, true) => .rateLimited ⟨mc, dc, st.last_call_time⟩ now2
      | (dc, false) => .ok ⟨mc, dc, st.last_call_time⟩ now2

/-- `RateLimiter.record_call` (base_api.py lines 102-108), performed at
instant `now`: append to the minute history always, to the day history only
when a daily cap is configured (truthy), and update `last_call_time`. -/
def record_call (cfg : RateLimitConfig) (st : RLState) (now : ℚ) : RLState :=
  { minute_calls := st.minute_calls ++ [now]
  , day_calls :=
      if optNatTruthy cfg.calls_per_day then st.day_calls ++ [now]
      else st.day_calls
  , last_call_time := some now }

/-- `APIConfig` from `src/config/settings.py` (the fields `_make_request`
consults; the credential/URL/retry fields configure the transport session
and parameter assembly, which do not affect the properties verified here). -/
structure APIConfig where
  rate_limit : RateLimitConfig
  enabled : Bool
deriving DecidableEq, Repr

/-- The `self.stats` dictionary of `BaseAPI`. -/
structure Stats where
  total_calls : Nat
  successful_calls : Nat
  failed_calls : Nat
  retried_calls : Nat
  total_wait_time : ℚ
deriving DecidableEq, Repr

/-- `BaseAPI.__init__` statistics. -/
def Stats.init : Stats := ⟨0, 0, 0, 0, 0⟩

/-- Outcome of the single `self.session.request(...)` dispatch inside
`_make_request` (the session's internal urllib3 retries are part of this one
dispatch): a response with a status code, a `requests.exceptions.Timeout`,
or another `requests.exceptions.RequestException` (connection-level
failure). -/
inductive Outcome where
  | response (status : Nat)
  | timeout
  | connError
deriving DecidableEq, Repr

/-- The exceptions `_make_request` can raise. -/
inductive ReqError where
  | disabled            -- `APIException`: provider disabled in configuration
  | rateLimited         -- `RateLimitException` from `wait_if_needed`
  | apiError (status : Nat)  -- `APIException`: status >= 400
  | timeoutError        -- `APIException`: request timeout
  | requestFailed       -- `APIException`: other request failure
  | indexError          -- latent IndexError (calls_per_minute = 0 only)
deriving DecidableEq, Repr

/-- Everything observable about one `_make_request` invocation: the returned
value or raised exception, the rate-limiter state and statistics left
behind, the clock on exit, the number of network dispatches performed, and
the number of `record_call` invocations performed. -/
structure ReqResult where
  result : Except ReqError Nat
  rl : RLState
  stats : Stats
  now : ℚ
  dispatched : Nat
  recorded : Nat
deriving Repr

/-- `BaseAPI._make_request` (base_api.py lines 200-290).  `now` is the clock
on entry; `dt` is the (non-negative) wall time the network dispatch takes
before its outcome is known.  Parameter/header assembly (lines 238-247) is
pure data plumbing into the dispatch and is not modelled.  Flow:
disabled-guard, rate-limiter admission (wait time accrues to
`total_wait_time`), dispatch, then on a response `record_call` +
`total_calls` increment and status classification; on `Timeout` /
`RequestException` only `failed_calls` is incremented. -/
def make_request (cfg : APIConfig) (st : RLState) (stats : Stats) (now : ℚ)
    (outcome : Outcome) (dt : ℚ) : ReqResult :=
  if !cfg.enabled then
    ⟨.error .disabled, st, stats, now, 0, 0⟩
  else
    match wait_if_needed cfg.rate_limit st now with
    | .indexError st1 now1 => ⟨.error .indexError, st1, stats, now1, 0, 0⟩
    | .rateLimited st1 now1 => ⟨.error .rateLimited, st1, stats, now1, 0, 0⟩
    | .ok st1 now1 =>
        let stats1 :=
          { stats with total_wait_time := stats.total_wait_time + (now1 - now) }
        match outcome with
        | .timeout =>
            ⟨.error .timeoutError, st1,
              { stats1 with failed_calls := stats1.failed_calls + 1 },
              now1 + dt, 1, 0⟩
        | .connError =>
            ⟨.error .requestFailed, st1,
              { stats1 with failed_calls := stats1.failed_calls + 1 },
              now1 + dt, 1, 0⟩
        | .response status =>
            let tResp := now1 + dt
            let st2 := record_call cfg.rate_limit st1 tResp
            let stats2 := { stats1 with total_calls := stats1.total_calls + 1 }
            if 400 ≤ status then
              ⟨.error (.apiError status), st2,
                { stats2 with failed_calls := stats2.failed_calls + 1 },
                tResp, 1, 1⟩
            else
              ⟨.ok status, st2,
                { stats2 with successful_calls := stats2.successful_calls + 1 },
                tResp, 1, 1⟩

/-!
## Trace semantics for a single caller of one `RateLimiter`

A caller repeatedly invokes `wait_if_needed` and, when it returns normally,
`record_call`.  Each event is a pair `(r, d)`: the caller invokes
`wait_if_needed` at wall time `r` (no earlier than the current clock) and,
once admitted at time `now'`, the call is dispatched and recorded `d ≥ 0`
seconds later (`record_call` reads `time.time()` afresh).  When
`wait_if_needed` raises, nothing is recorded. -/

/-- Trace state: the limiter state, the wall clock, and the log of completed
calls as `(admission instant, recorded instant)` pairs. -/
structure TraceState where
  rl : RLState
  clock : ℚ
  log : List (ℚ × ℚ)
deriving DecidableEq, Repr

/-- Initial trace state at wall time `t0`. -/
def TraceState.init (t0 : ℚ) : TraceState := ⟨RLState.init, t0, []⟩

/-- The recorded call instants of a trace, in order. -/
def TraceState.recorded (ts : TraceState) : List ℚ := ts.log.map Prod.snd

/-- One admission/record cycle by the single caller. -/
def step (cfg : RateLimitConfig) (ts : TraceState) (ev : ℚ × ℚ) : TraceState :=
  match wait_if_needed cfg ts.rl ev.1 with
  | .ok st1 now1 =>
      let tRec := now1 + ev.2
      ⟨record_call cfg st1 tRec, tRec, ts.log ++ [(now1, tRec)]⟩
  | .rateLimited st1 now1 => ⟨st1, now1, ts.log⟩
  | .indexError st1 now1 => ⟨st1, now1, ts.log⟩

/-- Run a sequence of admission/record cycles. -/
def run (cfg : RateLimitConfig) (ts : TraceState) (evs : List (ℚ × ℚ)) :
    TraceState :=
  evs.foldl (step cfg) ts

/-- A well-formed schedule: each `wait_if_needed` invocation happens no
earlier than the clock left by the previous cycle (wall time is monotone),
and each dispatch duration is non-negative. -/
def scheduleOk (cfg : RateLimitConfig) (ts : TraceState) :
    List (ℚ × ℚ) → Bool
  | [] => true
  | ev :: evs =>
      ts.clock ≤ ev.1 && 0 ≤ ev.2 && scheduleOk cfg (step cfg ts ev) evs

/-- Number of instants of `l` inside the 60-second window `(s, s + 60]`. -/
def windowCount (l : List ℚ) (s : ℚ) : Nat :=
  (l.filter (fun t => decide (s < t ∧ t ≤ s + 60))).length

/-!
## Cursor-paginated bulk fetch

`MassiveApi.get_all_tickers` (massive_api.py lines 85-167).  A provider is a
function from the index of the request being issued (0-based, counting every
issued request) to what that request yields: a page (`results` list and
`next_url` cursor) or a raised exception.  The code's two fetch paths (first
page via `get_tickers`, later pages via the absolute or relative `next_url`)
perform the same extend / break / increment logic, so one loop body covers
both. -/

/-- What one issued page request yields: a parsed page, or any exception
(from the request itself or from `response.json()`). -/
inductive FetchResult (α : Type) where
  | ok (results : List α) (next_url : Option String)
  | err
deriving DecidableEq, Repr

/-- Python truthiness of `next_url` (an `Optional[str]`): `None` and the
empty string are falsy. -/
def optStrTruthy : Option String → Bool
  | none => false
  | some s => s != ""

/-- The `while True:` loop of `get_all_tickers`, fuel-indexed (the Python
loop has no structural termination measure; `none` means the fuel ran out
before the loop exited).  State: accumulated tickers, the 1-based `page`
counter, and the number of requests issued so far.  Returns the accumulated
tickers and the total number of issued requests.  Loop body: the
`max_pages`-truthy cap check, then the fetch inside `try:` — an exception
breaks the loop; a page is appended and the loop breaks if the new cursor is
falsy or the page was empty, else `page += 1`. -/
def fetchLoop {α : Type} (provider : Nat → FetchResult α)
    (max_pages : Option Nat) : List α → Nat → Nat → Nat →
    Option (List α × Nat)
  | _, _, _, 0 => none
  | acc, page, fetched, fuel + 1 =>
      if optNatTruthy max_pages ∧ (max_pages.getD 0) < page then
        some (acc, fetched)
      else
        match provider fetched with
        | .err => some (acc, fetched + 1)
        | .ok results next_url =>
            let acc' := acc ++ results
            if !optStrTruthy next_url ∨ results.length = 0 then
              some (acc', fetched + 1)
            else
              fetchLoop provider max_pages acc' (page + 1) (fetched + 1) fuel

/-- `MassiveApi.get_all_tickers`: start with no tickers, `page = 1`, no
requests issued. -/
def get_all_tickers {α : Type} (provider : Nat → FetchResult α)
    (max_pages : Option Nat) (fuel : Nat) : Option (List α × Nat) :=
  fetchLoop provider max_pages [] 1 0 fuel

/-!
## Helper lemmas
-/

/-- Pruning at a later threshold after an earlier one is the same as pruning
only at the later threshold. -/
lemma filter_lt_filter_lt (l : List ℚ) {a b : ℚ} (hab : a ≤ b) :
    (l.filter (fun t => decide (a < t))).filter (fun t => decide (b < t)) =
      l.filter (fun t => decide (b < t)) := by
  rw [List.filter_filter]
  refine List.filter_congr fun x _ => ?_
  by_cases hx : b < x
  · simp [hx, lt_of_le_of_lt hab hx]
  · simp [hx]

/-- A filter bounded by an elementwise-weaker filter has no more elements. -/
lemma length_filter_le_filter (l : List ℚ) {p q : ℚ → Bool}
    (h : ∀ x ∈ l, p x = true → q x = true) :
    (l.filter p).length ≤ (l.filter q).length := by
  have h1 : l.filter p = l.filter (fun a => p a && q a) := by
    refine List.filter_congr fun x hx => ?_
    cases hp : p x with
    | true => simpa [hp] using (h x hx hp).symm
    | false => simp [hp]
  calc (l.filter p).length = ((l.filter q).filter p).length := by
        rw [h1, List.filter_filter]
    _ ≤ (l.filter q).length := (List.filter_sublist _).length_le

/-- The minimum-delay phase never moves the clock backwards. -/
lemma minDelayPhase_ge (cfg : RateLimitConfig) (last : Option ℚ) (now : ℚ) :
    now ≤ minDelayPhase cfg last now := by
  cases last with
  | none => simp [minDelayPhase]
  | some l =>
      simp only [minDelayPhase]
      split
      · next h => linarith [h.2]
      · exact le_refl _

/-- If a previous call instant is recorded (and nonzero), the clock after the
minimum-delay phase is at least that instant plus `min_delay_seconds`. -/
lemma minDelayPhase_ge_last (cfg : RateLimitConfig) (l now : ℚ)
    (hl : l ≠ 0) :
    l + cfg.min_delay_seconds ≤ minDelayPhase cfg (some l) now := by
  simp only [minDelayPhase]
  split
  · exact le_refl _
  · next h =>
      push_neg at h
      linarith [h hl]

/-- Behaviour of the per-minute phase on a state whose minute history is a
pruned copy of the full record list `recorded`, provided every 60-second
window of `recorded` is within the per-minute limit. -/
lemma minutePhase_spec (cfg : RateLimitConfig) (recorded mc0 : List ℚ)
    (now θ : ℚ)
    (hrep : mc0 = recorded.filter (fun t => decide (θ < t)))
    (hθ : θ ≤ now - 60)
    (hle : ∀ t ∈ recorded, t ≤ now)
    (hwin : ∀ s, windowCount recorded s ≤ cfg.calls_per_minute) :
    ∀ mc now2, minutePhase cfg mc0 now = some (mc, now2) →
      now ≤ now2 ∧ mc = recorded.filter (fun t => decide (now2 - 60 < t)) ∧
        mc.length < cfg.calls_per_minute := by
  intro mc now2 hmp
  have hmc1 : mc0.filter (fun t => decide (now - 60 < t)) =
      recorded.filter (fun t => decide (now - 60 < t)) := by
    rw [hrep]; exact filter_lt_filter_lt recorded hθ
  have hbound : (mc0.filter (fun t => decide (now - 60 < t))).length ≤
      cfg.calls_per_minute := by
    rw [hmc1]
    refine le_trans (length_filter_le_filter recorded fun x hx hpx => ?_)
      (hwin (now - 60))
    simp only [decide_eq_true_eq] at hpx ⊢
    exact ⟨hpx, by linarith [hle x hx]⟩
  simp only [minutePhase] at hmp
  by_cases hfull : cfg.calls_per_minute ≤
      (mc0.filter (fun t => decide (now - 60 < t))).length
  · cases hl : mc0.filter (fun t => decide (now - 60 < t)) with
    | nil =>
        rw [hl] at hmp hfull
        rw [if_pos hfull] at hmp
        simp at hmp
    | cons oldest tl =>
        rw [hl] at hmp hfull
        rw [if_pos hfull] at hmp
        simp only [List.head?_cons] at hmp
        have holdmem : oldest ∈ mc0.filter (fun t => decide (now - 60 < t)) := by
          rw [hl]; exact List.mem_cons_self _ _
        have hold : now - 60 < oldest := by
          have := (List.mem_filter.mp holdmem).2
          simpa using this
        have hwt : (0:ℚ) < 60 - (now - oldest) + 1/10 := by linarith
        rw [if_pos hwt] at hmp
        simp only [Option.some.injEq, Prod.mk.injEq] at hmp
        obtain ⟨hmc, hnow2⟩ := hmp
        have hn2 : now ≤ now2 := by rw [← hnow2]; linarith
        refine ⟨hn2, ?_, ?_⟩
        · rw [← hmc, ← hl, hmc1, ← hnow2,
            filter_lt_filter_lt recorded (by linarith)]
        · -- the sleep drops at least the oldest entry from a window that
          -- held exactly `calls_per_minute` entries
          have hdrop : (oldest :: tl).filter
              (fun t => decide (now + (60 - (now - oldest) + 1/10) - 60 < t)) =
              tl.filter
                (fun t => decide (now + (60 - (now - oldest) + 1/10) - 60 < t)) := by
            rw [List.filter_cons]
            have hno : ¬ (now + (60 - (now - oldest) + 1/10) - 60 < oldest) := by
              linarith
            simp [hno]
            linarith
          have hmclen : mc.length ≤ tl.length := by
            rw [← hmc, hdrop]
            exact List.length_filter_le _ _
          have hlen1 : tl.length + 1 ≤ cfg.calls_per_minute := by
            rw [hl] at hbound
            simpa using hbound
          omega
  · rw [if_neg hfull] at hmp
    simp only [Option.some.injEq, Prod.mk.injEq] at hmp
    obtain ⟨hmc, hnow2⟩ := hmp
    refine ⟨by rw [← hnow2], ?_, ?_⟩
    · rw [← hmc, ← hnow2, hmc1]
    · rw [← hmc]
      exact lt_of_not_le hfull

/-- Combined specification of one `wait_if_needed` run on a state whose
minute history is a pruned copy of the full record list `recorded`: the clock
never goes backwards (and not below the minimum-delay target), the resulting
minute history is exactly the records still inside the final 60-second
window, `last_call_time` is untouched, and on a normal return the
admission-time window is strictly under the per-minute limit. -/
lemma wait_spec (cfg : RateLimitConfig) (st : RLState) (recorded : List ℚ)
    (clock now θ : ℚ)
    (hrep : st.minute_calls = recorded.filter (fun t => decide (θ < t)))
    (hθ : θ ≤ clock - 60)
    (hle : ∀ t ∈ recorded, t ≤ clock)
    (hwin : ∀ s, windowCount recorded s ≤ cfg.calls_per_minute)
    (hnow : clock ≤ now) :
    minDelayPhase cfg st.last_call_time now ≤ (wait_if_needed cfg st now).time ∧
    (wait_if_needed cfg st now).state.minute_calls =
      recorded.filter (fun t => decide ((wait_if_needed cfg st now).time - 60 < t)) ∧
    (wait_if_needed cfg st now).state.last_call_time = st.last_call_time ∧
    (∀ st1 now1, wait_if_needed cfg st now = .ok st1 now1 →
      st1.minute_calls.length < cfg.calls_per_minute) := by
  have hd := minDelayPhase_ge cfg st.last_call_time now
  set now1 := minDelayPhase cfg st.last_call_time now with hnow1
  have hle1 : ∀ t ∈ recorded, t ≤ now1 := fun t ht =>
    le_trans (hle t ht) (le_trans hnow hd)
  have hθ1 : θ ≤ now1 - 60 := by
    have := le_trans hnow hd
    linarith
  have hspec := minutePhase_spec cfg recorded st.minute_calls now1 θ hrep hθ1
    hle1 hwin
  cases hmp : minutePhase cfg st.minute_calls now1 with
  | none =>
      -- the IndexError path: the minute list was reassigned to the pruned
      -- copy just before the crash
      have hw : wait_if_needed cfg st now =
          .indexError
            { st with minute_calls :=
                st.minute_calls.filter (fun t => decide (now1 - 60 < t)) }
            now1 := by
        simp only [wait_if_needed, ← hnow1, hmp]
      rw [hw]
      simp only [WaitResult.time, WaitResult.state]
      refine ⟨le_refl _, ?_, by trivial, ?_⟩
      · rw [hrep]
        exact filter_lt_filter_lt recorded hθ1
      · intro st1 n1 h
        exact absurd h (by simp)
  | some pr =>
      obtain ⟨mc, now2⟩ := pr
      obtain ⟨h1, h2, h3⟩ := hspec mc now2 hmp
      cases hdp : dayPhase cfg st.day_calls now2 with
      | mk dc raised =>
          cases raised with
          | true =>
              have hw : wait_if_needed cfg st now =
                  .rateLimited ⟨mc, dc, st.last_call_time⟩ now2 := by
                simp only [wait_if_needed, ← hnow1, hmp, hdp]
              rw [hw]
              simp only [WaitResult.time, WaitResult.state]
              exact ⟨h1, h2, by trivial, fun st1 n1 h => absurd h (by simp)⟩
          | false =>
              have hw : wait_if_needed cfg st now =
                  .ok ⟨mc, dc, st.last_call_time⟩ now2 := by
                simp only [wait_if_needed, ← hnow1, hmp, hdp]
              rw [hw]
              simp only [WaitResult.time, WaitResult.state]
              refine ⟨h1, h2, by trivial, fun st1 n1 h => ?_⟩
              have hst : st1 = ⟨mc, dc, st.last_call_time⟩ := by
                have := h.symm
                simp only [WaitResult.ok.injEq] at this
                exact this.1
              rw [hst]
              exact h3

/-- Appending an instant to a record list adds it to exactly the windows
containing it. -/
lemma windowCount_append (l : List ℚ) (a s : ℚ) :
    windowCount (l ++ [a]) s =
      windowCount l s + if s < a ∧ a ≤ s + 60 then 1 else 0 := by
  simp only [windowCount, List.filter_append, List.length_append]
  congr 1
  by_cases h : s < a ∧ a ≤ s + 60 <;> simp [h]

/-- Invariant tying a trace state to its record history: every record is in
the past, the minute history is a pruned copy of the records (pruned no
later than 60 s before the clock), and every 60-second window of the records
is within the per-minute limit. -/
def MinuteInv (cfg : RateLimitConfig) (ts : TraceState) : Prop :=
  (∀ t ∈ ts.recorded, t ≤ ts.clock) ∧
  (∃ θ, ts.rl.minute_calls = ts.recorded.filter (fun t => decide (θ < t)) ∧
    θ ≤ ts.clock - 60) ∧
  (∀ s, windowCount ts.recorded s ≤ cfg.calls_per_minute)

lemma MinuteInv_init (cfg : RateLimitConfig) (t0 : ℚ) :
    MinuteInv cfg (TraceState.init t0) := by
  refine ⟨?_, ⟨t0 - 60, ?_, le_refl _⟩, ?_⟩ <;>
    simp [TraceState.init, TraceState.recorded, RLState.init, windowCount]

lemma MinuteInv_step (cfg : RateLimitConfig) (ts : TraceState) (ev : ℚ × ℚ)
    (hinv : MinuteInv cfg ts) (hev1 : ts.clock ≤ ev.1) (hev2 : 0 ≤ ev.2) :
    MinuteInv cfg (step cfg ts ev) := by
  obtain ⟨hle, ⟨θ, hrep, hθ⟩, hwin⟩ := hinv
  obtain ⟨htime, hmc, _, hok⟩ :=
    wait_spec cfg ts.rl ts.recorded ts.clock ev.1 θ hrep hθ hle hwin hev1
  have htge : ev.1 ≤ (wait_if_needed cfg ts.rl ev.1).time :=
    le_trans (minDelayPhase_ge cfg _ _) htime
  cases hw : wait_if_needed cfg ts.rl ev.1 with
  | rateLimited st1 now1 =>
      have hs : step cfg ts ev = ⟨st1, now1, ts.log⟩ := by
        simp only [step, hw]
      rw [hw] at hmc htge
      simp only [WaitResult.state, WaitResult.time] at hmc htge
      rw [hs]
      exact ⟨fun t ht => le_trans (hle t ht) (le_trans hev1 htge),
        ⟨now1 - 60, hmc, le_refl _⟩, hwin⟩
  | indexError st1 now1 =>
      have hs : step cfg ts ev = ⟨st1, now1, ts.log⟩ := by
        simp only [step, hw]
      rw [hw] at hmc htge
      simp only [WaitResult.state, WaitResult.time] at hmc htge
      rw [hs]
      exact ⟨fun t ht => le_trans (hle t ht) (le_trans hev1 htge),
        ⟨now1 - 60, hmc, le_refl _⟩, hwin⟩
  | ok st1 now1 =>
      have hs : step cfg ts ev =
          ⟨record_call cfg st1 (now1 + ev.2), now1 + ev.2,
            ts.log ++ [(now1, now1 + ev.2)]⟩ := by
        simp only [step, hw]
      rw [hw] at hmc htge
      simp only [WaitResult.state, WaitResult.time] at hmc htge
      have hlen : st1.minute_calls.length < cfg.calls_per_minute :=
        hok st1 now1 hw
      have htr : now1 ≤ now1 + ev.2 := by linarith
      have hrec : (TraceState.mk (record_call cfg st1 (now1 + ev.2))
          (now1 + ev.2) (ts.log ++ [(now1, now1 + ev.2)])).recorded =
          ts.recorded ++ [now1 + ev.2] := by
        simp [TraceState.recorded]
      rw [hs]
      refine ⟨?_, ⟨now1 - 60, ?_, ?_⟩, ?_⟩
      · rw [hrec]
        intro t ht
        rcases List.mem_append.mp ht with h | h
        · exact le_trans (hle t h) (le_trans hev1 (le_trans htge htr))
        · simp only [List.mem_singleton] at h
          exact le_of_eq h
      · rw [hrec]
        simp only [record_call, hmc, List.filter_append]
        congr 1
        have : now1 - 60 < now1 + ev.2 := by linarith
        simp [this]
      · simp only [TraceState.clock]
        linarith
      · rw [hrec]
        intro s
        rw [windowCount_append]
        by_cases hmem : s < now1 + ev.2 ∧ now1 + ev.2 ≤ s + 60
        · rw [if_pos hmem]
          have hsub : windowCount ts.recorded s ≤ st1.minute_calls.length := by
            rw [hmc]
            refine length_filter_le_filter ts.recorded fun x hx hpx => ?_
            simp only [decide_eq_true_eq] at hpx ⊢
            obtain ⟨hx1, _⟩ := hpx
            -- `s ≥ tRec - 60 ≥ now1 - 60`, so the window is inside the
            -- pruned region
            linarith [hmem.2]
          omega
        · rw [if_neg hmem]
          simpa using hwin s
  -- end cases

lemma MinuteInv_run (cfg : RateLimitConfig) (ts : TraceState)
    (evs : List (ℚ × ℚ)) (hinv : MinuteInv cfg ts)
    (hsch : scheduleOk cfg ts evs = true) :
    MinuteInv cfg (run cfg ts evs) := by
  induction evs generalizing ts with
  | nil => simpa [run] using hinv
  | cons ev evs ih =>
      simp only [scheduleOk, Bool.and_eq_true, decide_eq_true_eq] at hsch
      obtain ⟨⟨h1, h2⟩, h3⟩ := hsch
      simp only [run, List.foldl_cons]
      exact ih (step cfg ts ev) (MinuteInv_step cfg ts ev hinv h1 h2) h3

/-- Invariant for the minimum-delay property: the clock is positive, every
logged call has a positive admission instant no later than its recorded
instant (itself in the past), `last_call_time` is the most recent recorded
instant, and consecutive logged calls are admitted at least
`min_delay_seconds` after the previous recorded instant. -/
def DelayInv (cfg : RateLimitConfig) (ts : TraceState) : Prop :=
  0 < ts.clock ∧
  (∀ p ∈ ts.log, 0 < p.1 ∧ p.1 ≤ p.2 ∧ p.2 ≤ ts.clock) ∧
  ts.rl.last_call_time = ts.recorded.getLast? ∧
  List.Chain' (fun p q : ℚ × ℚ => p.2 + cfg.min_delay_seconds ≤ q.1) ts.log

lemma DelayInv_init (cfg : RateLimitConfig) (t0 : ℚ) (h : 0 < t0) :
    DelayInv cfg (TraceState.init t0) := by
  refine ⟨h, by simp [TraceState.init], ?_, by simp [TraceState.init]⟩
  simp [TraceState.init, TraceState.recorded, RLState.init]

lemma DelayInv_step (cfg : RateLimitConfig) (ts : TraceState) (ev : ℚ × ℚ)
    (hmi : MinuteInv cfg ts) (hdi : DelayInv cfg ts)
    (hev1 : ts.clock ≤ ev.1) (hev2 : 0 ≤ ev.2) :
    DelayInv cfg (step cfg ts ev) := by
  obtain ⟨hle, ⟨θ, hrep, hθ⟩, hwin⟩ := hmi
  obtain ⟨hpos, hlog, hlast, hchain⟩ := hdi
  obtain ⟨htime, _, hlastp, _⟩ :=
    wait_spec cfg ts.rl ts.recorded ts.clock ev.1 θ hrep hθ hle hwin hev1
  have htge : ev.1 ≤ (wait_if_needed cfg ts.rl ev.1).time :=
    le_trans (minDelayPhase_ge cfg _ _) htime
  cases hw : wait_if_needed cfg ts.rl ev.1 with
  | rateLimited st1 now1 =>
      have hs : step cfg ts ev = ⟨st1, now1, ts.log⟩ := by
        simp only [step, hw]
      rw [hw] at hlastp htge
      simp only [WaitResult.state, WaitResult.time] at hlastp htge
      rw [hs]
      refine ⟨lt_of_lt_of_le hpos (le_trans hev1 htge), ?_, hlastp.trans hlast,
        hchain⟩
      intro p hp
      obtain ⟨h1, h2, h3⟩ := hlog p hp
      exact ⟨h1, h2, le_trans h3 (le_trans hev1 htge)⟩
  | indexError st1 now1 =>
      have hs : step cfg ts ev = ⟨st1, now1, ts.log⟩ := by
        simp only [step, hw]
      rw [hw] at hlastp htge
      simp only [WaitResult.state, WaitResult.time] at hlastp htge
      rw [hs]
      refine ⟨lt_of_lt_of_le hpos (le_trans hev1 htge), ?_, hlastp.trans hlast,
        hchain⟩
      intro p hp
      obtain ⟨h1, h2, h3⟩ := hlog p hp
      exact ⟨h1, h2, le_trans h3 (le_trans hev1 htge)⟩
  | ok st1 now1 =>
      have hs : step cfg ts ev =
          ⟨record_call cfg st1 (now1 + ev.2), now1 + ev.2,
            ts.log ++ [(now1, now1 + ev.2)]⟩ := by
        simp only [step, hw]
      rw [hw] at hlastp htime htge
      simp only [WaitResult.state, WaitResult.time] at hlastp htime htge
      have hn1 : 0 < now1 := lt_of_lt_of_le hpos (le_trans hev1 htge)
      have htr : now1 ≤ now1 + ev.2 := by linarith
      rw [hs]
      refine ⟨show 0 < now1 + ev.2 by linarith, ?_, ?_, ?_⟩
      · intro p hp
        rcases List.mem_append.mp hp with h | h
        · obtain ⟨h1, h2, h3⟩ := hlog p h
          exact ⟨h1, h2,
            show p.2 ≤ now1 + ev.2 by linarith [le_trans h3 (le_trans hev1 htge)]⟩
        · simp only [List.mem_singleton] at h
          rw [h]
          exact ⟨hn1, htr, le_refl _⟩
      · simp [TraceState.recorded, record_call, List.getLast?_concat]
      · rw [List.chain'_append]
        refine ⟨hchain, List.chain'_singleton _, ?_⟩
        intro x hx y hy
        simp only [List.head?_cons, Option.mem_def, Option.some.injEq] at hy
        rw [← hy]
        -- `x` is the last logged call; `last_call_time` is its recorded
        -- instant, and the minimum-delay phase pushes the next admission
        -- at least `min_delay_seconds` past it
        have hxmem : x ∈ ts.log := by
          obtain ⟨hne, hxl⟩ := List.mem_getLast?_eq_getLast hx
          rw [hxl]
          exact List.getLast_mem hne
        obtain ⟨hx1, hx2, hx3⟩ := hlog x hxmem
        have hlast2 : ts.rl.last_call_time = some x.2 := by
          rw [hlast]
          simp only [TraceState.recorded, List.getLast?_map]
          rw [Option.mem_def.mp hx]
          rfl
        have hx2pos : x.2 ≠ 0 := by
          have : 0 < x.2 := lt_of_lt_of_le hx1 hx2
          exact ne_of_gt this
        have := minDelayPhase_ge_last cfg x.2 ev.1 hx2pos
        rw [← hlast2] at this
        exact le_trans this htime

lemma DelayInv_run (cfg : RateLimitConfig) (ts : TraceState)
    (evs : List (ℚ × ℚ)) (hmi : MinuteInv cfg ts) (hdi : DelayInv cfg ts)
    (hsch : scheduleOk cfg ts evs = true) :
    DelayInv cfg (run cfg ts evs) := by
  induction evs generalizing ts with
  | nil => simpa [run] using hdi
  | cons ev evs ih =>
      simp only [scheduleOk, Bool.and_eq_true, decide_eq_true_eq] at hsch
      obtain ⟨⟨h1, h2⟩, h3⟩ := hsch
      simp only [run, List.foldl_cons]
      exact ih (step cfg ts ev) (MinuteInv_step cfg ts ev hmi h1 h2)
        (DelayInv_step cfg ts ev hmi hdi h1 h2) h3

/-- The per-minute phase only removes entries from the minute history. -/
lemma minutePhase_sublist (cfg : RateLimitConfig) (mc0 : List ℚ) (now : ℚ)
    (mc : List ℚ) (now2 : ℚ) (h : minutePhase cfg mc0 now = some (mc, now2)) :
    mc.Sublist mc0 := by
  simp only [minutePhase] at h
  by_cases hfull : cfg.calls_per_minute ≤
      (mc0.filter (fun t => decide (now - 60 < t))).length
  · rw [if_pos hfull] at h
    cases hhead : (mc0.filter (fun t => decide (now - 60 < t))).head? with
    | none => rw [hhead] at h; exact absurd h (by simp)
    | some oldest =>
        rw [hhead] at h
        simp only at h
        split at h
        · simp only [Option.some.injEq, Prod.mk.injEq] at h
          rw [← h.1]
          exact ((List.filter_sublist _).trans (List.filter_sublist _))
        · simp only [Option.some.injEq, Prod.mk.injEq] at h
          rw [← h.1]
          exact List.filter_sublist _
  · rw [if_neg hfull] at h
    simp only [Option.some.injEq, Prod.mk.injEq] at h
    rw [← h.1]
    exact List.filter_sublist _

/-- The day phase only removes entries from the day history. -/
lemma dayPhase_sublist (cfg : RateLimitConfig) (dc0 : List ℚ) (now : ℚ) :
    (dayPhase cfg dc0 now).1.Sublist dc0 := by
  simp only [dayPhase]
  cases cfg.calls_per_day with
  | none => exact List.Sublist.refl _
  | some cpd =>
      dsimp only
      split
      · exact List.Sublist.refl _
      · exact List.filter_sublist _

/-- With a falsy (`0`) page cap, the fetch loop behaves exactly as with no
cap at all. -/
lemma fetchLoop_zero_cap {α : Type} (provider : Nat → FetchResult α) :
    ∀ fuel acc page fetched,
      fetchLoop provider (some 0) acc page fetched fuel =
        fetchLoop provider none acc page fetched fuel := by
  intro fuel
  induction fuel with
  | zero => intro acc page fetched; rfl
  | succ fuel ih =>
      intro acc page fetched
      simp only [fetchLoop]
      rw [if_neg (by simp [optNatTruthy]), if_neg (by simp [optNatTruthy])]
      cases provider fetched with
      | err => rfl
      | ok results next =>
          dsimp only
          split
          · rfl
          · exact ih _ _ _

/-- With a truthy page cap `m`, the loop reaches a result within the fuel
bound and issues at most `fetched + (m + 1 - page)` further requests. -/
lemma fetchLoop_cap_bound {α : Type} (provider : Nat → FetchResult α)
    (m : Nat) (hm : m ≠ 0) :
    ∀ fuel page acc fetched, 1 ≤ page → m + 1 - page < fuel →
      ∃ r : List α × Nat,
        fetchLoop provider (some m) acc page fetched fuel = some r ∧
          r.2 ≤ fetched + (m + 1 - page) := by
  intro fuel
  induction fuel with
  | zero => intro page acc fetched _ h2; omega
  | succ fuel ih =>
      intro page acc fetched hpage hfuel
      by_cases hcap : m < page
      · refine ⟨(acc, fetched), ?_, by omega⟩
        simp only [fetchLoop]
        rw [if_pos ⟨by simp [optNatTruthy, hm], by simpa using hcap⟩]
      · push_neg at hcap
        have hguard : ¬(optNatTruthy (some m) = true ∧ (some m).getD 0 < page) := by
          simp [optNatTruthy, hm]
          omega
        cases hp : provider fetched with
        | err =>
            refine ⟨(acc, fetched + 1), ?_, by omega⟩
            simp only [fetchLoop]
            rw [if_neg hguard, hp]
        | ok results next =>
            by_cases hstop : (!optStrTruthy next) = true ∨ results.length = 0
            · refine ⟨(acc ++ results, fetched + 1), ?_, by omega⟩
              simp only [fetchLoop]
              rw [if_neg hguard, hp]
              dsimp only
              rw [if_pos hstop]
            · obtain ⟨r, hr, hrle⟩ :=
                ih (page + 1) (acc ++ results) (fetched + 1) (by omega) (by omega)
              refine ⟨r, ?_, by omega⟩
              simp only [fetchLoop]
              rw [if_neg hguard, hp]
              dsimp only
              rw [if_neg hstop]
              exact hr

/-!
## Concrete sample data used by witnesses and counterexamples
-/

/-- A sample validated rate-limit configuration: 2 calls/min, 3 calls/day,
0.5 s minimum delay. -/
def cfgSample : RateLimitConfig := ⟨2, some 3, 1/2⟩

/-- A provider with exactly two pages (the second has no `next_url`). -/
def providerTwoPages : Nat → FetchResult Nat
  | 0 => .ok [10] (some "X")
  | 1 => .ok [20] none
  | _ => .err

/-- The provider of the specification's pagination-termination scenario:
pages `[a, b]`, `[c]`, `[]`, each carrying the still-present cursor "X". -/
def scenarioProvider (a b c : Nat) : Nat → FetchResult Nat
  | 0 => .ok [a, b] (some "X")
  | 1 => .ok [c] (some "X")
  | 2 => .ok [] (some "X")
  | _ => .err

/-- A provider whose second page request raises. -/
def errProvider : Nat → FetchResult Nat
  | 0 => .ok [7] (some "X")
  | _ => .err

/-!
## Claim theorems
-/

/-- C1: for every sequence of admissions and recordings performed by a single
caller through one `RateLimiter` (each `wait_if_needed` followed, on normal
return, by `record_call`), and for every window of 60 consecutive seconds,
the number of calls recorded inside that window never exceeds the policy's
`calls_per_minute`. -/
theorem minute_window_never_exceeded (cfg : RateLimitConfig) (t0 : ℚ)
    (evs : List (ℚ × ℚ))
    (hsch : scheduleOk cfg (TraceState.init t0) evs = true) (s : ℚ) :
    windowCount (run cfg (TraceState.init t0) evs).recorded s ≤
      cfg.calls_per_minute :=
  (MinuteInv_run cfg _ evs (MinuteInv_init cfg t0) hsch).2.2 s

/-- Witness for C1: a schedule that fills the one-per-minute budget and asks
again immediately; the window starting at 0 still holds at most one call. -/
theorem minute_window_never_exceeded_witness :
    scheduleOk ⟨1, none, 0⟩ (TraceState.init 1) [(1, 0), (2, 0)] = true ∧
    windowCount
      (run ⟨1, none, 0⟩ (TraceState.init 1) [(1, 0), (2, 0)]).recorded 0 ≤ 1 := by
  have hs : scheduleOk ⟨1, none, 0⟩ (TraceState.init 1) [(1, 0), (2, 0)] = true := by
    norm_num [scheduleOk, step, wait_if_needed, minDelayPhase, minutePhase,
      dayPhase, record_call, TraceState.init, RLState.init, optNatTruthy]
  exact ⟨hs, minute_window_never_exceeded ⟨1, none, 0⟩ 1 [(1, 0), (2, 0)] hs 0⟩

/-- C4: over any single-caller trace starting at a positive wall time, the
limiter admits each call at least `min_delay_seconds` after the previous
admitted call's recorded instant (`last_call_time`), and every admission
precedes its own recording. -/
theorem min_delay_between_calls (cfg : RateLimitConfig) (t0 : ℚ)
    (evs : List (ℚ × ℚ)) (h0 : 0 < t0)
    (hsch : scheduleOk cfg (TraceState.init t0) evs = true) :
    List.Chain' (fun p q : ℚ × ℚ => p.2 + cfg.min_delay_seconds ≤ q.1)
      (run cfg (TraceState.init t0) evs).log ∧
    ∀ p ∈ (run cfg (TraceState.init t0) evs).log, p.1 ≤ p.2 := by
  have h := DelayInv_run cfg _ evs (MinuteInv_init cfg t0)
    (DelayInv_init cfg t0 h0) hsch
  exact ⟨h.2.2.2, fun p hp => (h.2.1 p hp).2.1⟩

/-- Witness for C4: two back-to-back requests under a 0.5 s minimum delay;
the second admission is delayed to 1.5. -/
theorem min_delay_between_calls_witness :
    List.Chain' (fun p q : ℚ × ℚ => p.2 + (⟨10, none, 1/2⟩ :
        RateLimitConfig).min_delay_seconds ≤ q.1)
      (run ⟨10, none, 1/2⟩ (TraceState.init 1) [(1, 0), (1, 0)]).log :=
  (min_delay_between_calls ⟨10, none, 1/2⟩ 1 [(1, 0), (1, 0)] (by norm_num)
    (by norm_num [scheduleOk, step, wait_if_needed, minDelayPhase, minutePhase,
      dayPhase, record_call, TraceState.init, RLState.init, optNatTruthy])).1

/-- C6 (counterexample): `wait_if_needed` does mutate the call-history state:
starting from a minute history `[5]` at wall time 100, the expired entry is
pruned away, so `minute_calls` does not stay `[5]` as the claim asserts. -/
theorem wait_if_needed_mutates_history_cex :
    (wait_if_needed cfgSample ⟨[5], [], none⟩ 100).state.minute_calls = [] ∧
    ([] : List ℚ) ≠ [5] := by
  constructor
  · norm_num [wait_if_needed, cfgSample, minDelayPhase, minutePhase, dayPhase,
      WaitResult.state, List.filter]
  · decide

/-- C6 (amended): `wait_if_needed` never appends to either history and never
changes `last_call_time`; it can only prune (its resulting histories are
sublists of the originals).  Appending happens only via `record_call`. -/
theorem wait_if_needed_frame (cfg : RateLimitConfig) (st : RLState) (now : ℚ) :
    (wait_if_needed cfg st now).state.last_call_time = st.last_call_time ∧
    (wait_if_needed cfg st now).state.minute_calls.Sublist st.minute_calls ∧
    (wait_if_needed cfg st now).state.day_calls.Sublist st.day_calls := by
  cases hmp : minutePhase cfg st.minute_calls
      (minDelayPhase cfg st.last_call_time now) with
  | none =>
      have hw : wait_if_needed cfg st now =
          .indexError
            { st with minute_calls :=
                st.minute_calls.filter (fun t => decide (minDelayPhase cfg st.last_call_time now - 60 < t)) }
            (minDelayPhase cfg st.last_call_time now) := by
        simp only [wait_if_needed, hmp]
      rw [hw]
      exact ⟨rfl, List.filter_sublist _, List.Sublist.refl _⟩
  | some pr =>
      obtain ⟨mc, now2⟩ := pr
      have hmc : mc.Sublist st.minute_calls :=
        minutePhase_sublist cfg st.minute_calls _ mc now2 hmp
      cases hdp : dayPhase cfg st.day_calls now2 with
      | mk dc raised =>
          have hdc : dc.Sublist st.day_calls := by
            have := dayPhase_sublist cfg st.day_calls now2
            rw [hdp] at this
            exact this
          cases raised with
          | true =>
              have hw : wait_if_needed cfg st now =
                  .rateLimited ⟨mc, dc, st.last_call_time⟩ now2 := by
                simp only [wait_if_needed, hmp, hdp]
              rw [hw]
              exact ⟨rfl, hmc, hdc⟩
          | false =>
              have hw : wait_if_needed cfg st now =
                  .ok ⟨mc, dc, st.last_call_time⟩ now2 := by
                simp only [wait_if_needed, hmp, hdp]
              rw [hw]
              exact ⟨rfl, hmc, hdc⟩

/-- C2: if a daily cap is configured (a validated cap is positive) and the
24-hour window still holds at least `calls_per_day` records once pruned at
the post-minute-phase clock, `wait_if_needed` raises `RateLimitException`
without sleeping for the daily window (the exit clock is exactly the clock
that entered the daily check); and with `calls_per_day` unset it never
raises. -/
theorem daily_quota_raises_without_sleep (cfg : RateLimitConfig)
    (st : RLState) (now : ℚ) :
    (∀ cpd mc now2,
      cfg.calls_per_day = some cpd → 0 < cpd →
      minutePhase cfg st.minute_calls
        (minDelayPhase cfg st.last_call_time now) = some (mc, now2) →
      cpd ≤ (st.day_calls.filter (fun t => decide (now2 - 86400 < t))).length →
      wait_if_needed cfg st now =
        .rateLimited
          ⟨mc, st.day_calls.filter (fun t => decide (now2 - 86400 < t)),
            st.last_call_time⟩ now2) ∧
    (cfg.calls_per_day = none →
      ∀ st' now', wait_if_needed cfg st now ≠ .rateLimited st' now') := by
  constructor
  · intro cpd mc now2 hcpd hpos hmp hcount
    have hday : dayPhase cfg st.day_calls now2 =
        (st.day_calls.filter (fun t => decide (now2 - 86400 < t)), true) := by
      simp only [dayPhase, hcpd]
      rw [if_neg (Nat.pos_iff_ne_zero.mp hpos)]
      simp [hcount]
    simp only [wait_if_needed, hmp, hday]
  · intro hnone st' now'
    cases hmp : minutePhase cfg st.minute_calls
        (minDelayPhase cfg st.last_call_time now) with
    | none =>
        have hw : wait_if_needed cfg st now =
            .indexError
              { st with minute_calls :=
                  st.minute_calls.filter (fun t => decide (minDelayPhase cfg st.last_call_time now - 60 < t)) }
              (minDelayPhase cfg st.last_call_time now) := by
          simp only [wait_if_needed, hmp]
        rw [hw]
        simp
    | some pr =>
        obtain ⟨mc, now2⟩ := pr
        have hday : dayPhase cfg st.day_calls now2 = (st.day_calls, false) := by
          simp only [dayPhase, hnone]
        have hw : wait_if_needed cfg st now =
            .ok ⟨mc, st.day_calls, st.last_call_time⟩ now2 := by
          simp only [wait_if_needed, hmp, hday]
        rw [hw]
        simp

/-- Witness for C2: a one-per-day limiter whose single recorded day call is
still inside the 24-hour window raises; the same state under a no-daily-cap
policy cannot raise. -/
theorem daily_quota_raises_without_sleep_witness :
    wait_if_needed ⟨2, some 1, 0⟩ ⟨[], [100], some 100⟩ 101 =
      .rateLimited ⟨[], [100], some 100⟩ 101 ∧
    wait_if_needed ⟨2, none, 0⟩ ⟨[], [100], some 100⟩ 101 ≠
      .rateLimited RLState.init 0 := by
  constructor
  · have h := (daily_quota_raises_without_sleep ⟨2, some 1, 0⟩
      ⟨[], [100], some 100⟩ 101).1 1 [] 101 rfl (by norm_num)
      (by norm_num [minutePhase, minDelayPhase])
      (by norm_num [List.filter])
    rw [h]
    norm_num [List.filter]
  · exact (daily_quota_raises_without_sleep ⟨2, none, 0⟩
      ⟨[], [100], some 100⟩ 101).2 rfl RLState.init 0

/-- C5: `_make_request` against a disabled configuration raises the
disabled-provider `APIException` immediately: no dispatch, no `record_call`,
and the rate-limiter state, statistics and clock are all left unchanged. -/
theorem disabled_provider_no_effects (cfg : APIConfig) (st : RLState)
    (stats : Stats) (now : ℚ) (outcome : Outcome) (dt : ℚ)
    (h : cfg.enabled = false) :
    make_request cfg st stats now outcome dt =
      ⟨.error .disabled, st, stats, now, 0, 0⟩ := by
  simp [make_request, h]

/-- Witness for C5 at a concrete disabled configuration. -/
theorem disabled_provider_no_effects_witness :
    make_request ⟨cfgSample, false⟩ RLState.init Stats.init 100
        (.response 200) 1 =
      ⟨.error .disabled, RLState.init, Stats.init, 100, 0, 0⟩ :=
  disabled_provider_no_effects ⟨cfgSample, false⟩ RLState.init Stats.init 100
    (.response 200) 1 rfl

/-- C3 (counterexample): a dispatched request that times out is *not*
recorded and does not increment `total_calls` (only `failed_calls`), contrary
to the claim that every dispatched call consumes quota and is counted
regardless of outcome. -/
theorem timeout_not_recorded_cex :
    (make_request ⟨cfgSample, true⟩ RLState.init Stats.init 100 .timeout
      1).dispatched = 1 ∧
    (make_request ⟨cfgSample, true⟩ RLState.init Stats.init 100 .timeout
      1).recorded = 0 ∧
    (make_request ⟨cfgSample, true⟩ RLState.init Stats.init 100 .timeout
      1).stats.total_calls = 0 ∧
    (make_request ⟨cfgSample, true⟩ RLState.init Stats.init 100 .timeout
      1).rl.last_call_time = none := by
  refine ⟨?_, ?_, ?_, ?_⟩ <;>
    norm_num [make_request, wait_if_needed, minDelayPhase, minutePhase,
      dayPhase, cfgSample, RLState.init, Stats.init, List.filter]

/-- C3 (amended): when `_make_request` dispatches (enabled configuration,
admission granted), it performs exactly one dispatch; `record_call` runs and
`total_calls` is incremented exactly once iff the transport returned a
response (success or HTTP-error status alike), while a `Timeout` or a
connection-level `RequestException` records nothing and leaves `total_calls`
unchanged (only `failed_calls` grows). -/
theorem record_call_iff_response (cfg : APIConfig) (st : RLState)
    (stats : Stats) (now : ℚ) (outcome : Outcome) (dt : ℚ)
    (st1 : RLState) (now1 : ℚ) (hen : cfg.enabled = true)
    (hok : wait_if_needed cfg.rate_limit st now = .ok st1 now1) :
    (make_request cfg st stats now outcome dt).dispatched = 1 ∧
    ((make_request cfg st stats now outcome dt).recorded = 1 ↔
      ∃ s, outcome = .response s) ∧
    (∀ s, outcome = .response s →
      (make_request cfg st stats now outcome dt).stats.total_calls =
        stats.total_calls + 1 ∧
      (make_request cfg st stats now outcome dt).rl =
        record_call cfg.rate_limit st1 (now1 + dt)) ∧
    ((outcome = .timeout ∨ outcome = .connError) →
      (make_request cfg st stats now outcome dt).recorded = 0 ∧
      (make_request cfg st stats now outcome dt).stats.total_calls =
        stats.total_calls ∧
      (make_request cfg st stats now outcome dt).rl = st1) := by
  cases outcome with
  | response s =>
      by_cases hs : 400 ≤ s
      · refine ⟨?_, ?_, ?_, ?_⟩ <;>
          simp [make_request, hen, hok, hs]
      · refine ⟨?_, ?_, ?_, ?_⟩ <;>
          simp [make_request, hen, hok, hs]
  | timeout =>
      refine ⟨?_, ?_, ?_, ?_⟩ <;> simp [make_request, hen, hok]
  | connError =>
      refine ⟨?_, ?_, ?_, ?_⟩ <;> simp [make_request, hen, hok]

/-- Witness for C3 (amended) at a concrete successful response. -/
theorem record_call_iff_response_witness :
    (make_request ⟨cfgSample, true⟩ RLState.init Stats.init 100
      (.response 200) 1).recorded = 1 ↔
    ∃ s, (Outcome.response 200) = .response s := by
  have hw : wait_if_needed cfgSample RLState.init 100 =
      .ok RLState.init 100 := by
    norm_num [wait_if_needed, cfgSample, minDelayPhase, minutePhase, dayPhase,
      RLState.init, List.filter]
  exact (record_call_iff_response ⟨cfgSample, true⟩ RLState.init Stats.init
    100 (.response 200) 1 RLState.init 100 rfl hw).2.1

/-- C7: against pages `[a,b]/"X"`, `[c]/"X"`, `[]/"X"`, `get_all_tickers`
without a page cap returns exactly `[a, b, c]` after exactly 3 requests,
stopping on the zero-item page although the cursor is still present; and in
general one loop iteration terminates returning the accumulated items as
soon as the fetched page has a falsy cursor or zero items, or (before even
fetching) as soon as a truthy page cap is exceeded. -/
theorem pagination_terminates_scenario :
    (∀ a b c : Nat,
      get_all_tickers (scenarioProvider a b c) none 10 = some ([a, b, c], 3)) ∧
    (∀ (α : Type) (provider : Nat → FetchResult α) (max_pages : Option Nat)
        (acc : List α) (page fetched fuel : Nat) (results : List α)
        (next : Option String),
      ¬(optNatTruthy max_pages = true ∧ max_pages.getD 0 < page) →
      provider fetched = .ok results next →
      ((!optStrTruthy next) = true ∨ results.length = 0) →
      fetchLoop provider max_pages acc page fetched (fuel + 1) =
        some (acc ++ results, fetched + 1)) ∧
    (∀ (α : Type) (provider : Nat → FetchResult α) (max_pages : Option Nat)
        (acc : List α) (page fetched fuel : Nat),
      optNatTruthy max_pages = true → max_pages.getD 0 < page →
      fetchLoop provider max_pages acc page fetched (fuel + 1) =
        some (acc, fetched)) := by
  refine ⟨fun a b c => rfl, ?_, ?_⟩
  · intro α provider max_pages acc page fetched fuel results next hcap hp hstop
    simp only [fetchLoop]
    rw [if_neg hcap, hp]
    dsimp only
    rw [if_pos hstop]
  · intro α provider max_pages acc page fetched fuel htru hlt
    simp only [fetchLoop]
    rw [if_pos ⟨htru, hlt⟩]

/-- Witness for C7: the one-step termination facts applied on concrete data
(a falsy-cursor page, and an exceeded cap). -/
theorem pagination_terminates_scenario_witness :
    fetchLoop providerTwoPages none [10] 2 1 6 = some ([10, 20], 2) ∧
    fetchLoop providerTwoPages (some 1) [10] 2 1 6 = some ([10], 1) :=
  ⟨pagination_terminates_scenario.2.1 Nat providerTwoPages none [10] 2 1 5
      [20] none (by simp [optNatTruthy]) rfl (by simp [optStrTruthy]),
    pagination_terminates_scenario.2.2 Nat providerTwoPages (some 1) [10] 2 1
      5 (by simp [optNatTruthy]) (by simp)⟩

/-- C8 (counterexample): with `max_pages = 0` — a set value — the loop is
*not* capped at 0 fetch operations: against a two-page provider it issues 2
requests, so "never exceeds maxPages fetch operations" fails at
`maxPages = 0`. -/
theorem max_pages_zero_exceeds_cap_cex :
    get_all_tickers providerTwoPages (some 0) 5 = some ([10, 20], 2) ∧
    ¬ (2 ≤ 0) := ⟨rfl, by decide⟩

/-- C8 (amended): for every *positive* page cap `m`, `get_all_tickers`
terminates within the fuel bound having issued at most `m` requests; and
with `max_pages = 1` it issues exactly one request and returns exactly the
first page's items, for any provider whose first fetch yields a page. -/
theorem page_cap_bounds_fetches (α : Type) (provider : Nat → FetchResult α) :
    (∀ m fuel : Nat, 1 ≤ m → m < fuel →
      ∃ r : List α × Nat,
        get_all_tickers provider (some m) fuel = some r ∧ r.2 ≤ m) ∧
    (∀ (results : List α) (next : Option String) (fuel : Nat),
      provider 0 = .ok results next → 2 ≤ fuel →
      get_all_tickers provider (some 1) fuel = some (results, 1)) := by
  constructor
  · intro m fuel hm hfuel
    obtain ⟨r, hr, hle⟩ := fetchLoop_cap_bound provider m
      (Nat.pos_iff_ne_zero.mp hm) fuel 1 [] 0 (le_refl 1) (by omega)
    exact ⟨r, hr, by omega⟩
  · intro results next fuel hp hfuel
    obtain ⟨fuel2, rfl⟩ : ∃ k, fuel = k + 2 :=
      ⟨fuel - 2, by omega⟩
    have hguard : ¬(optNatTruthy (some 1) = true ∧ (some 1).getD 0 < 1) := by
      simp [optNatTruthy]
    simp only [get_all_tickers, fetchLoop]
    rw [if_neg hguard, hp]
    dsimp only
    by_cases hstop : (!optStrTruthy next) = true ∨ results.length = 0
    · rw [if_pos hstop]
      simp
    · rw [if_neg hstop]
      rw [if_pos ⟨by simp [optNatTruthy], by simp⟩]
      simp

/-- Witness for C8 (amended) on a concrete two-page provider. -/
theorem page_cap_bounds_fetches_witness :
    get_all_tickers providerTwoPages (some 1) 6 = some ([10], 1) :=
  (page_cap_bounds_fetches Nat providerTwoPages).2 [10] (some "X") 6 rfl
    (by omega)

/-- C9: when the next page request raises, the loop breaks instead of
propagating: provided the page cap does not fire first, the call returns the
items accumulated from the pages fetched before the failure. -/
theorem page_error_returns_partial_result (α : Type)
    (provider : Nat → FetchResult α) (max_pages : Option Nat) (acc : List α)
    (page fetched fuel : Nat) (herr : provider fetched = .err)
    (hcap : ¬(optNatTruthy max_pages = true ∧ max_pages.getD 0 < page)) :
    fetchLoop provider max_pages acc page fetched (fuel + 1) =
      some (acc, fetched + 1) := by
  simp only [fetchLoop]
  rw [if_neg hcap, herr]

/-- Witness for C9: the second fetch of `errProvider` raises; the first
page's item is returned. -/
theorem page_error_returns_partial_result_witness :
    fetchLoop errProvider none [7] 2 1 9 = some ([7], 2) :=
  page_error_returns_partial_result Nat errProvider none [7] 2 1 8 rfl
    (by simp [optNatTruthy])

/-- C10: a page cap of `0` is falsy, so `get_all_tickers` with
`max_pages = some 0` behaves exactly as with no cap at all — it pages on
until cursor absence, an empty page, or a page error — rather than returning
an empty result after zero requests; concretely, against a two-page provider
it still fetches both pages. -/
theorem max_pages_zero_means_no_cap :
    (∀ (α : Type) (provider : Nat → FetchResult α) (fuel : Nat),
      get_all_tickers provider (some 0) fuel =
        get_all_tickers provider none fuel) ∧
    get_all_tickers providerTwoPages (some 0) 5 = some ([10, 20], 2) ∧
    get_all_tickers providerTwoPages (some 0) 5 ≠ some ([], 0) := by
  refine ⟨fun α provider fuel => fetchLoop_zero_cap provider fuel [] 1 0,
    rfl, ?_⟩
  intro h
  rw [show get_all_tickers providerTwoPages (some 0) 5 = some ([10, 20], 2)
    from rfl] at h
  simp at h

end Stox
